import Mathlib

/-!
Verification of the arrow2 compute core: a shallow embedding of
`src/compute/arithmetics/mod.rs` (the arithmetic operator layer) and
`src/compute/take/primitive.rs` (the gather algorithm), together with
proofs of the specified properties.

Machine integers are embedded as `Int` with explicit two's-complement
wrapping (`% 2 ^ w`), matching release-mode overflow semantics.  Fallible
Rust code returning `Result` is embedded as `Except ArrowError`; code that
can additionally hit a process-fatal fault (an out-of-bounds slice index,
`unreachable!`) is embedded as `Outcome`, which has a third, `fatal` case.
-/

namespace Arrow2

/-- The error type (modelled from the spec, section 6/7: the crate's
`ArrowError` is outside the given files).  Three distinguishable kinds are
used by this core: invalid-argument, unsupported/not-yet-implemented, and
the index-conversion-overflow kind, distinct from invalid-argument. -/
inductive ArrowError where
  | notYetImplemented : String → ArrowError
  | invalidArgumentError : String → ArrowError
  | indexOverflow : ArrowError
deriving DecidableEq, Repr

/-- Whether an error is of the recoverable invalid-argument kind. -/
def ArrowError.isInvalidArgument : ArrowError → Bool
  | ArrowError.invalidArgumentError _ => true
  | _ => false

/-- Outcome of a call that can return a value, return an error, or stop the
process with a fatal fault (a Rust out-of-bounds index or an explicit
contract-violation stop). -/
inductive Outcome (α : Type) where
  | ok : α → Outcome α
  | err : ArrowError → Outcome α
  | fatal : Outcome α
deriving DecidableEq, Repr

def Outcome.map (f : α → β) : Outcome α → Outcome β
  | Outcome.ok a => Outcome.ok (f a)
  | Outcome.err e => Outcome.err e
  | Outcome.fatal => Outcome.fatal

/-- Lift a `Result` into an `Outcome` (no fault happened). -/
def exceptOutcome : Except ArrowError α → Outcome α
  | Except.ok a => Outcome.ok a
  | Except.error e => Outcome.err e

/-- `PrimitiveArray<T>`: the element buffer plus the optional validity
bitmap, bit `true` = valid.  The logical type tag lives on `DynArray`
below; lengths are those of the lists. -/
structure PrimitiveArray (α : Type) where
  values : List α
  validity : Option (List Bool)
deriving DecidableEq, Repr

namespace PrimitiveArray

def len (a : PrimitiveArray α) : Nat := a.values.length

/-- `Bitmap::get_bit` on an optional bitmap: an absent bitmap behaves as
all-valid.  An index beyond the bitmap reads `false` in the model (the
source reads undefined padding there; no proved statement depends on it). -/
def validAtOpt (v : Option (List Bool)) (i : Nat) : Bool :=
  match v with
  | none => true
  | some l => l.getD i false

def isValidAt (a : PrimitiveArray α) (i : Nat) : Bool := validAtOpt a.validity i

def isNullAt (a : PrimitiveArray α) (i : Nat) : Bool := !(a.isValidAt i)

/-- `Array::value(i)` (the stored element; the type's default past the end). -/
def value [Inhabited α] (a : PrimitiveArray α) (i : Nat) : α := a.values.getD i default

/-- `Array::null_count` — popcount of the cleared validity bits. -/
def null_count (a : PrimitiveArray α) : Nat :=
  match a.validity with
  | none => 0
  | some v => v.count false

/-- Well-formedness invariant of `from_data`: a present validity bitmap has
exactly one bit per element. -/
def wfb (a : PrimitiveArray α) : Bool :=
  match a.validity with
  | none => true
  | some v => v.length == a.values.length

def wf (a : PrimitiveArray α) : Prop := a.wfb = true

instance (a : PrimitiveArray α) : Decidable a.wf :=
  inferInstanceAs (Decidable (a.wfb = true))

end PrimitiveArray

/-- Modelled from the spec: `combine_validities` (spec section 4.2), whose
code (`compute/arithmetics/utils.rs`) is not among the given files.
`(None, None)` gives `None`; one side present is passed through; two
present are bitwise-ANDed. -/
def combine_validities : Option (List Bool) → Option (List Bool) → Option (List Bool)
  | some x, some y => some (List.zipWith (fun p q => p && q) x y)
  | some x, none => some x
  | none, some y => some y
  | none, none => none

/-- `Buffer::try_from_trusted_len_iter`: collect a sequence of fallible
element computations, stopping at the first error. -/
def tryCollect : List (Except ArrowError α) → Except ArrowError (List α)
  | [] => Except.ok []
  | Except.error e :: _ => Except.error e
  | Except.ok a :: xs => (tryCollect xs).map (fun r => a :: r)

/-- As `tryCollect`, for element computations that can also fault.  The
first non-`ok` element decides the outcome. -/
def collectOutcome : List (Outcome α) → Outcome (List α)
  | [] => Outcome.ok []
  | Outcome.ok a :: xs => (collectOutcome xs).map (fun r => a :: r)
  | Outcome.err e :: _ => Outcome.err e
  | Outcome.fatal :: _ => Outcome.fatal

/-- The element-type interface the generic kernels require
(`T: NativeType + Add + Sub + Mul + Div + Neg + Zero`, `T::default()`,
`Zero::is_zero`). -/
structure NumOps (α : Type) where
  add : α → α → α
  sub : α → α → α
  mul : α → α → α
  div : α → α → α
  neg : α → α
  isZero : α → Bool
  dflt : α

/-- Modelled from the spec: `binary` (spec section 4.3), whose code
(`compute/arity.rs`) is not among the given files.  Requires equal lengths,
combines validities through `combine_validities`, applies `f` pairwise at
every position. -/
def binary (lhs rhs : PrimitiveArray α) (f : α → α → α) :
    Except ArrowError (PrimitiveArray α) :=
  if lhs.values.length = rhs.values.length then
    Except.ok (PrimitiveArray.mk (List.zipWith f lhs.values rhs.values)
      (combine_validities lhs.validity rhs.validity))
  else
    Except.error (ArrowError.invalidArgumentError
      "Cannot perform math operation on arrays of different length")

/-- Modelled from the spec: `unary` (spec section 4.3), whose code
(`compute/arity.rs`) is not among the given files.  Applies `f` to every
value; the validity is passed through unchanged.  (The source also threads
the logical type tag, which in this embedding lives on `DynArray`.) -/
def unary (a : PrimitiveArray α) (f : α → α) : PrimitiveArray α :=
  PrimitiveArray.mk (a.values.map f) a.validity

/-- The per-position computation of `divide`'s hand-rolled pass: at a
position whose combined validity bit is set, a zero divisor is an error
and otherwise the quotient is produced; at a cleared position the type's
default is produced and the divisor is not inspected.  (The no-null branch
of `divide` is this same computation with the bit fixed to `true`.) -/
def divElem (ops : NumOps α) (t : Bool × α × α) : Except ArrowError α :=
  if t.1 then
    if ops.isZero t.2.2 then
      Except.error (ArrowError.invalidArgumentError
        "There is a zero in the division, causing a division by zero")
    else
      Except.ok (ops.div t.2.1 t.2.2)
  else
    Except.ok ops.dflt

/-- `divide` from `compute/arithmetics/mod.rs` (lines 176-228): length
check, combined validity, then the validity-aware elementwise pass. -/
def divide (ops : NumOps α) (lhs rhs : PrimitiveArray α) :
    Except ArrowError (PrimitiveArray α) :=
  if lhs.values.length = rhs.values.length then
    match combine_validities lhs.validity rhs.validity with
    | some b =>
        (tryCollect ((b.zip (lhs.values.zip rhs.values)).map (divElem ops))).map
          (fun vs => PrimitiveArray.mk vs (some b))
    | none =>
        (tryCollect ((lhs.values.zip rhs.values).map
            (fun t => divElem ops (true, t)))).map
          (fun vs => PrimitiveArray.mk vs none)
  else
    Except.error (ArrowError.invalidArgumentError
      "Cannot perform math operation on arrays of different length")

/-- `divide_scalar` (lines 231-243): a zero divisor fails before touching
any element; otherwise a pure `unary` divide. -/
def divide_scalar (ops : NumOps α) (array : PrimitiveArray α) (divisor : α) :
    Except ArrowError (PrimitiveArray α) :=
  if ops.isZero divisor then
    Except.error (ArrowError.invalidArgumentError "The divisor cannot be zero")
  else
    Except.ok (unary array (fun x => ops.div x divisor))

/-- `add` (lines 246-251). -/
def add (ops : NumOps α) (lhs rhs : PrimitiveArray α) :
    Except ArrowError (PrimitiveArray α) :=
  binary lhs rhs ops.add

/-- `add_scalar` (lines 253-260). -/
def add_scalar (ops : NumOps α) (lhs : PrimitiveArray α) (rhs : α) :
    PrimitiveArray α :=
  unary lhs (fun a => ops.add a rhs)

/-- `subtract` (lines 262-268). -/
def subtract (ops : NumOps α) (lhs rhs : PrimitiveArray α) :
    Except ArrowError (PrimitiveArray α) :=
  binary lhs rhs ops.sub

/-- `subtract_scalar` (lines 270-277). -/
def subtract_scalar (ops : NumOps α) (lhs : PrimitiveArray α) (rhs : α) :
    PrimitiveArray α :=
  unary lhs (fun a => ops.sub a rhs)

/-- `negate` (lines 279-285). -/
def negate (ops : NumOps α) (array : PrimitiveArray α) : PrimitiveArray α :=
  unary array ops.neg

/-- `powf_scalar` (lines 287-293); the element exponentiation is a
parameter, as `Pow::pow` is for the generic source. -/
def powf_scalar (powf : α → α → α) (array : PrimitiveArray α) (exponent : α) :
    PrimitiveArray α :=
  unary array (fun x => powf x exponent)

/-- `multiply` (lines 295-301). -/
def multiply (ops : NumOps α) (lhs rhs : PrimitiveArray α) :
    Except ArrowError (PrimitiveArray α) :=
  binary lhs rhs ops.mul

/-- `multiply_scalar` (lines 303-310). -/
def multiply_scalar (ops : NumOps α) (lhs : PrimitiveArray α) (rhs : α) :
    PrimitiveArray α :=
  unary lhs (fun l => ops.mul l rhs)

/-- `Operator` (lines 127-133). -/
inductive Operator where
  | add
  | subtract
  | multiply
  | divide
deriving DecidableEq, Repr

/-- `arithmetic_primitive` (lines 135-150). -/
def arithmetic_primitive (ops : NumOps α) (lhs : PrimitiveArray α)
    (op : Operator) (rhs : PrimitiveArray α) :
    Except ArrowError (PrimitiveArray α) :=
  match op with
  | Operator.add => add ops lhs rhs
  | Operator.subtract => subtract ops lhs rhs
  | Operator.multiply => multiply ops lhs rhs
  | Operator.divide => divide ops lhs rhs

/-- Two's-complement wrap of an integer to signed width `w`
(release-mode overflow semantics). -/
def wrapS (w : Nat) (x : Int) : Int :=
  (x + 2 ^ (w - 1)) % 2 ^ w - 2 ^ (w - 1)

/-- Wrap of an integer to unsigned width `w`. -/
def wrapU (w : Nat) (x : Int) : Int := x % 2 ^ w

/-- The signed machine-integer instances of the element interface
(`i8`/`i16`/`i32`/`i64`/`i128` for `w` = 8/16/32/64/128): wrapping
arithmetic, truncated division, default 0. -/
def intOpsS (w : Nat) : NumOps Int where
  add := fun a b => wrapS w (a + b)
  sub := fun a b => wrapS w (a - b)
  mul := fun a b => wrapS w (a * b)
  div := fun a b => wrapS w (Int.tdiv a b)
  neg := fun a => wrapS w (-a)
  isZero := fun a => a == 0
  dflt := 0

/-- The unsigned machine-integer instances (`u8`/`u16`/`u32`/`u64`). -/
def intOpsU (w : Nat) : NumOps Int where
  add := fun a b => wrapU w (a + b)
  sub := fun a b => wrapU w (a - b)
  mul := fun a b => wrapU w (a * b)
  div := fun a b => wrapU w (a / b)
  neg := fun a => wrapU w (-a)
  isZero := fun a => a == 0
  dflt := 0

def i32ops : NumOps Int := intOpsS 32

/-- `TimeUnit` of the external type catalog (modelled from the spec; only
the tag matters here). -/
inductive TimeUnit where
  | second
  | millisecond
  | microsecond
  | nanosecond
deriving DecidableEq, Repr

/-- `DataType` (modelled from the spec's external logical type catalog):
the tags `arithmetic` dispatches on, plus `utf8` standing for the types
its catch-all unsupported arm rejects. -/
inductive DataType where
  | int8
  | int16
  | int32
  | int64
  | uint8
  | uint16
  | uint32
  | uint64
  | float16
  | float32
  | float64
  | decimal (precision scale : Nat)
  | duration (unit : TimeUnit)
  | utf8
deriving DecidableEq, Repr

/-- `&dyn Array` narrowed to a primitive array: the logical type tag plus
the stored values (all widths carried as `Int`). -/
structure DynArray where
  dt : DataType
  arr : PrimitiveArray Int
deriving DecidableEq, Repr

/-- `arithmetic` (lines 33-125): equal-type check, then dispatch by
logical type tag to the concretely-typed kernel.  `Float16` is the
source's `unreachable!` arm.  The two floating-point element
implementations are parameters (float semantics is outside the
embedding); the dispatch itself does not depend on them. -/
def arithmetic (f32ops f64ops : NumOps Int) (lhs : DynArray) (op : Operator)
    (rhs : DynArray) : Outcome DynArray :=
  if lhs.dt ≠ rhs.dt then
    Outcome.err (ArrowError.notYetImplemented
      "Arithmetic is currently only supported for arrays of the same logical type")
  else
    match lhs.dt with
    | DataType.int8 =>
        exceptOutcome ((arithmetic_primitive (intOpsS 8) lhs.arr op rhs.arr).map
          (fun r => DynArray.mk lhs.dt r))
    | DataType.int16 =>
        exceptOutcome ((arithmetic_primitive (intOpsS 16) lhs.arr op rhs.arr).map
          (fun r => DynArray.mk lhs.dt r))
    | DataType.int32 =>
        exceptOutcome ((arithmetic_primitive (intOpsS 32) lhs.arr op rhs.arr).map
          (fun r => DynArray.mk lhs.dt r))
    | DataType.int64 =>
        exceptOutcome ((arithmetic_primitive (intOpsS 64) lhs.arr op rhs.arr).map
          (fun r => DynArray.mk lhs.dt r))
    | DataType.duration _ =>
        exceptOutcome ((arithmetic_primitive (intOpsS 64) lhs.arr op rhs.arr).map
          (fun r => DynArray.mk lhs.dt r))
    | DataType.uint8 =>
        exceptOutcome ((arithmetic_primitive (intOpsU 8) lhs.arr op rhs.arr).map
          (fun r => DynArray.mk lhs.dt r))
    | DataType.uint16 =>
        exceptOutcome ((arithmetic_primitive (intOpsU 16) lhs.arr op rhs.arr).map
          (fun r => DynArray.mk lhs.dt r))
    | DataType.uint32 =>
        exceptOutcome ((arithmetic_primitive (intOpsU 32) lhs.arr op rhs.arr).map
          (fun r => DynArray.mk lhs.dt r))
    | DataType.uint64 =>
        exceptOutcome ((arithmetic_primitive (intOpsU 64) lhs.arr op rhs.arr).map
          (fun r => DynArray.mk lhs.dt r))
    | DataType.float16 => Outcome.fatal
    | DataType.float32 =>
        exceptOutcome ((arithmetic_primitive f32ops lhs.arr op rhs.arr).map
          (fun r => DynArray.mk lhs.dt r))
    | DataType.float64 =>
        exceptOutcome ((arithmetic_primitive f64ops lhs.arr op rhs.arr).map
          (fun r => DynArray.mk lhs.dt r))
    | DataType.decimal _ _ =>
        exceptOutcome ((arithmetic_primitive (intOpsS 128) lhs.arr op rhs.arr).map
          (fun r => DynArray.mk lhs.dt r))
    | DataType.utf8 =>
        Outcome.err (ArrowError.notYetImplemented
          "Arithmetics between this type is not supported")

/-- Modelled from the spec: `maybe_usize` (`super::maybe_usize`, spec
section 4.5/6), whose code (`compute/take/mod.rs`) is not among the given
files: converts a stored index to a platform offset, failing with the
recoverable conversion-overflow error exactly when the integer is not a
representable non-negative offset — for the index types at hand on a
64-bit platform, when it is negative. -/
def maybe_usize (i : Int) : Except ArrowError Nat :=
  if 0 ≤ i then Except.ok i.toNat else Except.error ArrowError.indexOverflow

/-- The per-index computation of `take_no_validity`: convert the index
(error propagates), then read `values[idx]` directly (fatal out of
bounds). -/
def takeNoValidityElem (values : List α) (index : Int) : Outcome α :=
  match maybe_usize index with
  | Except.error e => Outcome.err e
  | Except.ok idx =>
    match values.get? idx with
    | some v => Outcome.ok v
    | none => Outcome.fatal

/-- `take_no_validity` (`compute/take/primitive.rs` lines 27-38): convert
each index, read the value; no output bitmap. -/
def take_no_validity (values : List α) (indices : List Int) :
    Outcome (List α × Option (List Bool)) :=
  (collectOutcome (indices.map (takeNoValidityElem values))).map
    (fun buffer => (buffer, none))

/-- `take_values_validity` (lines 41-64): convert each index, copy the
values bitmap bit at the resolved index into a fresh output bitmap, read
the value (the source reads the bit then indexes `values_values[index]`,
which is fatal out of bounds). -/
def take_values_validity [Inhabited α] (values : PrimitiveArray α)
    (indices : List Int) : Outcome (List α × Option (List Bool)) :=
  let null_values := values.validity.getD []
  (collectOutcome (indices.map (fun index =>
    match maybe_usize index with
    | Except.error e => Outcome.err e
    | Except.ok idx =>
      match values.values.get? idx with
      | some v => Outcome.ok (v, null_values.getD idx false)
      | none => Outcome.fatal))).map
    (fun pairs => (pairs.map Prod.fst, some (pairs.map Prod.snd)))

/-- `take_indices_validity` (lines 67-91), embedded as written: it iterates
the raw `indices.values()` (reading slots its caller marks as unreadable),
converts each (a conversion error fails the call), and on an out-of-range
resolved index consults the indices bitmap at that resolved index — a
position-against-the-wrong-bitmap read — stopping fatally when that bit is
set and emitting the default when it is clear.  The output bitmap is the
indices' own validity, reused. -/
def take_indices_validity [Inhabited α] (values : List α)
    (indices : PrimitiveArray Int) : Outcome (List α × Option (List Bool)) :=
  let null_indices := indices.validity.getD []
  (collectOutcome (indices.values.map (fun index =>
    match maybe_usize index with
    | Except.error e => Outcome.err e
    | Except.ok idx =>
      match values.get? idx with
      | some v => Outcome.ok v
      | none =>
        if null_indices.getD idx false then Outcome.fatal
        else Outcome.ok default))).map
    (fun buffer => (buffer, indices.validity))

/-- `take_values_indices_validity` (lines 94-117): iterate the indices as
options (a cleared bit yields `none` without reading the stored integer);
a null slot emits the default and a cleared output bit; a valid slot is
converted, the values bitmap bit at the resolved index is copied, and the
value read (fatal out of bounds). -/
def take_values_indices_validity [Inhabited α] (values : PrimitiveArray α)
    (indices : PrimitiveArray Int) : Outcome (List α × Option (List Bool)) :=
  let values_validity := values.validity.getD []
  let items := List.zipWith (fun v b => if b then some v else none)
    indices.values (indices.validity.getD [])
  (collectOutcome (items.map (fun item =>
    match item with
    | some index =>
      match maybe_usize index with
      | Except.error e => Outcome.err e
      | Except.ok idx =>
        match values.values.get? idx with
        | some v => Outcome.ok (v, values_validity.getD idx false)
        | none => Outcome.fatal
    | none => Outcome.ok (default, false)))).map
    (fun pairs => (pairs.map Prod.fst, some (pairs.map Prod.snd)))

/-- `take` (lines 119-157): the four-way split on null presence. -/
def take [Inhabited α] (values : PrimitiveArray α)
    (indices : PrimitiveArray Int) : Outcome (PrimitiveArray α) :=
  let indices_has_validity : Bool := indices.null_count != 0
  let values_has_validity : Bool := values.null_count != 0
  let r : Outcome (List α × Option (List Bool)) :=
    match values_has_validity, indices_has_validity with
    | false, false => take_no_validity values.values indices.values
    | true, false => take_values_validity values indices.values
    | false, true => take_indices_validity values.values indices
    | true, true => take_values_indices_validity values indices
  r.map (fun p => PrimitiveArray.mk p.1 p.2)

/-- The claims' description of a successful binary elementwise result:
same length as the left operand, null exactly where either operand is
null, and the operator's value at every non-null position. -/
def binOutSpec [Inhabited α] (f : α → α → α) (lhs rhs out : PrimitiveArray α) :
    Prop :=
  out.len = lhs.len ∧
  ∀ i, i < lhs.len →
    (out.isNullAt i = (lhs.isNullAt i || rhs.isNullAt i)) ∧
    (out.isNullAt i = false →
      out.value i = f (lhs.value i) (rhs.value i))

/-- The per-position inputs of `divide`'s elementwise pass: the combined
validity bit (fixed `true` when the combined validity is absent) paired
with the operand values. -/
def bzOf (lhs rhs : PrimitiveArray α) : List (Bool × α × α) :=
  match combine_validities lhs.validity rhs.validity with
  | some b => b.zip (lhs.values.zip rhs.values)
  | none => (lhs.values.zip rhs.values).map (fun t => (true, t))

/-! ### Collection lemmas -/

theorem tryCollect_eq_ok_iff {α : Type} {l : List (Except ArrowError α)}
    {out : List α} : tryCollect l = Except.ok out ↔ l = out.map Except.ok := by
  induction l generalizing out with
  | nil => cases out <;> simp [tryCollect]
  | cons x xs ih =>
    cases x with
    | error e => cases out <;> simp [tryCollect]
    | ok a =>
      cases out with
      | nil =>
        simp only [tryCollect, List.map_nil]
        cases hx : tryCollect xs <;> simp [Except.map]
      | cons b bs =>
        simp only [tryCollect, List.map_cons]
        cases hx : tryCollect xs with
        | error e =>
          simp only [Except.map, List.cons_eq_cons, Except.ok.injEq]
          refine iff_of_false (by simp) ?_
          rintro ⟨-, h2⟩
          have := ih.mpr h2
          rw [hx] at this
          exact absurd this (by simp)
        | ok r =>
          simp only [Except.map, List.cons_eq_cons, Except.ok.injEq]
          constructor
          · rintro ⟨h1, h2⟩
            refine ⟨h1, ?_⟩
            rw [← h2]
            exact ih.mp hx
          · rintro ⟨h1, h2⟩
            have := ih.mpr h2
            rw [hx] at this
            cases this
            exact ⟨h1, rfl⟩

theorem tryCollect_map_ok_iff {α β : Type} (f : β → Except ArrowError α)
    (l : List β) (out : List α) :
    tryCollect (l.map f) = Except.ok out ↔
      (out.length = l.length ∧
        ∀ i, (h1 : i < l.length) → (h2 : i < out.length) →
          f l[i] = Except.ok out[i]) := by
  rw [tryCollect_eq_ok_iff]
  constructor
  · intro h
    have hlen : out.length = l.length := by
      have := congrArg List.length h
      simpa using this.symm
    refine ⟨hlen, ?_⟩
    intro i h1 h2
    have hmem : i < (l.map f).length := by simpa using h1
    have := List.getElem_of_eq h hmem
    simpa using this
  · rintro ⟨hlen, h⟩
    refine List.ext_getElem (by simpa using hlen.symm) ?_
    intro n h1 h2
    have hn1 : n < l.length := by simpa using h1
    have hn2 : n < out.length := by simpa using h2
    simpa using h n hn1 hn2

theorem tryCollect_error_exists_iff {α : Type} (l : List (Except ArrowError α)) :
    (∃ e, tryCollect l = Except.error e) ↔ ∃ x ∈ l, ∃ e, x = Except.error e := by
  induction l with
  | nil => simp [tryCollect]
  | cons x xs ih =>
    cases x with
    | error e => simp [tryCollect]
    | ok a =>
      simp only [tryCollect, List.mem_cons]
      constructor
      · rintro ⟨e, he⟩
        cases hx : tryCollect xs with
        | error e2 =>
          obtain ⟨y, hy, he2⟩ := ih.mp ⟨e2, hx⟩
          exact ⟨y, Or.inr hy, he2⟩
        | ok r =>
          rw [hx] at he
          exact absurd he (by simp [Except.map])
      · rintro ⟨y, hy, e, he⟩
        rcases hy with hy | hy
        · rw [hy] at he
          exact absurd he (by simp)
        · obtain ⟨e2, he2⟩ := ih.mpr ⟨y, hy, e, he⟩
          exact ⟨e2, by rw [he2]; simp [Except.map]⟩

theorem collectOutcome_eq_ok_iff {α : Type} {l : List (Outcome α)}
    {out : List α} : collectOutcome l = Outcome.ok out ↔ l = out.map Outcome.ok := by
  induction l generalizing out with
  | nil => cases out <;> simp [collectOutcome]
  | cons x xs ih =>
    cases x with
    | err e => cases out <;> simp [collectOutcome]
    | fatal => cases out <;> simp [collectOutcome]
    | ok a =>
      cases out with
      | nil =>
        simp only [collectOutcome, List.map_nil]
        cases hx : collectOutcome xs <;> simp [Outcome.map]
      | cons b bs =>
        simp only [collectOutcome, List.map_cons]
        cases hx : collectOutcome xs with
        | err e =>
          simp only [Outcome.map, List.cons_eq_cons, Outcome.ok.injEq]
          refine iff_of_false (by simp) ?_
          rintro ⟨-, h2⟩
          have := ih.mpr h2
          rw [hx] at this
          exact absurd this (by simp)
        | fatal =>
          simp only [Outcome.map, List.cons_eq_cons, Outcome.ok.injEq]
          refine iff_of_false (by simp) ?_
          rintro ⟨-, h2⟩
          have := ih.mpr h2
          rw [hx] at this
          exact absurd this (by simp)
        | ok r =>
          simp only [Outcome.map, List.cons_eq_cons, Outcome.ok.injEq]
          constructor
          · rintro ⟨h1, h2⟩
            refine ⟨h1, ?_⟩
            rw [← h2]
            exact ih.mp hx
          · rintro ⟨h1, h2⟩
            have := ih.mpr h2
            rw [hx] at this
            cases this
            exact ⟨h1, rfl⟩

theorem collectOutcome_map_ok_iff {α β : Type} (f : β → Outcome α)
    (l : List β) (out : List α) :
    collectOutcome (l.map f) = Outcome.ok out ↔
      (out.length = l.length ∧
        ∀ i, (h1 : i < l.length) → (h2 : i < out.length) →
          f l[i] = Outcome.ok out[i]) := by
  rw [collectOutcome_eq_ok_iff]
  constructor
  · intro h
    have hlen : out.length = l.length := by
      have := congrArg List.length h
      simpa using this.symm
    refine ⟨hlen, ?_⟩
    intro i h1 h2
    have hmem : i < (l.map f).length := by simpa using h1
    have := List.getElem_of_eq h hmem
    simpa using this
  · rintro ⟨hlen, h⟩
    refine List.ext_getElem (by simpa using hlen.symm) ?_
    intro n h1 h2
    have hn1 : n < l.length := by simpa using h1
    have hn2 : n < out.length := by simpa using h2
    simpa using h n hn1 hn2

theorem collectOutcome_err_of {α : Type} {l : List (Outcome α)} {E : ArrowError}
    (hall : ∀ x ∈ l, x = Outcome.err E ∨ ∃ a, x = Outcome.ok a)
    (hex : ∃ x ∈ l, x = Outcome.err E) : collectOutcome l = Outcome.err E := by
  induction l with
  | nil => simp at hex
  | cons x xs ih =>
    rcases hall x (by simp) with hx | ⟨a, hx⟩
    · rw [hx]; rfl
    · subst hx
      obtain ⟨y, hy, hye⟩ := hex
      rcases List.mem_cons.mp hy with hy1 | hy1
    -- head is ok, so the witness is in the tail
      · rw [hy1] at hye; exact absurd hye (by simp)
      · have := ih (fun z hz => hall z (List.mem_cons_of_mem _ hz)) ⟨y, hy1, hye⟩
        simp only [collectOutcome, this, Outcome.map]

theorem collectOutcome_fatal_of {α : Type} {l : List (Outcome α)}
    (hall : ∀ x ∈ l, x = Outcome.fatal ∨ ∃ a, x = Outcome.ok a)
    (hex : ∃ x ∈ l, x = Outcome.fatal) : collectOutcome l = Outcome.fatal := by
  induction l with
  | nil => simp at hex
  | cons x xs ih =>
    rcases hall x (by simp) with hx | ⟨a, hx⟩
    · rw [hx]; rfl
    · subst hx
      obtain ⟨y, hy, hye⟩ := hex
      rcases List.mem_cons.mp hy with hy1 | hy1
      · rw [hy1] at hye; exact absurd hye (by simp)
      · have := ih (fun z hz => hall z (List.mem_cons_of_mem _ hz)) ⟨y, hy1, hye⟩
        simp only [collectOutcome, this, Outcome.map]

/-! ### Validity lemmas -/

theorem wf_lengths {α : Type} (a : PrimitiveArray α) (h : a.wf) :
    ∀ l ∈ a.validity, l.length = a.values.length := by
  intro l hl
  rw [Option.mem_def] at hl
  unfold PrimitiveArray.wf PrimitiveArray.wfb at h
  rw [hl] at h
  simpa using h

theorem combine_validities_lengths {v1 v2 : Option (List Bool)} {n : Nat}
    (h1 : ∀ l ∈ v1, l.length = n) (h2 : ∀ l ∈ v2, l.length = n) :
    ∀ l ∈ combine_validities v1 v2, l.length = n := by
  intro l hl
  rw [Option.mem_def] at hl
  cases v1 with
  | none =>
    cases v2 with
    | none => simp [combine_validities] at hl
    | some y =>
      simp only [combine_validities, Option.some.injEq] at hl
      rw [← hl]
      exact h2 y (by simp)
  | some x =>
    cases v2 with
    | none =>
      simp only [combine_validities, Option.some.injEq] at hl
      rw [← hl]
      exact h1 x (by simp)
    | some y =>
      simp only [combine_validities, Option.some.injEq] at hl
      rw [← hl]
      rw [List.length_zipWith, h1 x (by simp), h2 y (by simp)]
      exact min_self n

theorem validAtOpt_combine {v1 v2 : Option (List Bool)} {n : Nat}
    (h1 : ∀ l ∈ v1, l.length = n) (h2 : ∀ l ∈ v2, l.length = n)
    (i : Nat) (hi : i < n) :
    PrimitiveArray.validAtOpt (combine_validities v1 v2) i =
      (PrimitiveArray.validAtOpt v1 i && PrimitiveArray.validAtOpt v2 i) := by
  cases v1 with
  | none =>
    cases v2 with
    | none => rfl
    | some y => simp [combine_validities, PrimitiveArray.validAtOpt]
  | some x =>
    cases v2 with
    | none => simp [combine_validities, PrimitiveArray.validAtOpt]
    | some y =>
      have hx : x.length = n := h1 x (by simp)
      have hy : y.length = n := h2 y (by simp)
      have hiz : i < (List.zipWith (fun p q => p && q) x y).length := by
        rw [List.length_zipWith, hx, hy]
        simpa using hi
      simp only [combine_validities, PrimitiveArray.validAtOpt]
      rw [List.getD_eq_getElem _ _ hiz, List.getD_eq_getElem _ _ (hx ▸ hi),
        List.getD_eq_getElem _ _ (hy ▸ hi), List.getElem_zipWith]

theorem combine_validities_eq_none_iff {v1 v2 : Option (List Bool)} :
    combine_validities v1 v2 = none ↔ v1 = none ∧ v2 = none := by
  cases v1 <;> cases v2 <;> simp [combine_validities]

/-! ### The elementwise kernel framework -/

theorem binary_ok {α : Type} [Inhabited α] (f : α → α → α)
    (lhs rhs : PrimitiveArray α) (hl : lhs.wf) (hr : rhs.wf)
    (hlen : lhs.len = rhs.len) :
    ∃ out, binary lhs rhs f = Except.ok out ∧ binOutSpec f lhs rhs out := by
  have hlen' : lhs.values.length = rhs.values.length := hlen
  refine ⟨PrimitiveArray.mk (List.zipWith f lhs.values rhs.values)
    (combine_validities lhs.validity rhs.validity), ?_, ?_, ?_⟩
  · unfold binary
    rw [if_pos hlen']
  · show (List.zipWith f lhs.values rhs.values).length = lhs.len
    rw [List.length_zipWith, ← hlen']
    exact min_self _
  · intro i hi
    have hi' : i < lhs.values.length := hi
    have h1 := wf_lengths lhs hl
    have h2 : ∀ l ∈ rhs.validity, l.length = lhs.values.length := by
      intro l hl2
      rw [wf_lengths rhs hr l hl2]
      exact hlen'.symm
    have hcomb := validAtOpt_combine h1 h2 i hi'
    constructor
    · simp only [PrimitiveArray.isNullAt, PrimitiveArray.isValidAt]
      rw [hcomb, Bool.not_and]
    · intro _
      show (List.zipWith f lhs.values rhs.values).getD i default =
        f (lhs.values.getD i default) (rhs.values.getD i default)
      have hiz : i < (List.zipWith f lhs.values rhs.values).length := by
        rw [List.length_zipWith, ← hlen']
        simpa using hi'
      rw [List.getD_eq_getElem _ _ hiz, List.getD_eq_getElem _ _ hi',
        List.getD_eq_getElem _ _ (hlen' ▸ hi'), List.getElem_zipWith]

/-- C3: for same-length well-formed operands, `add` succeeds with a result
that is null at a position iff either operand is, and carries the sum of
the operand values at every non-null position; likewise `subtract` and
`multiply` with their operators. -/
theorem add_subtract_multiply_spec {α : Type} [Inhabited α] (ops : NumOps α)
    (lhs rhs : PrimitiveArray α) (hl : lhs.wf) (hr : rhs.wf)
    (hlen : lhs.len = rhs.len) :
    (∃ out, add ops lhs rhs = Except.ok out ∧ binOutSpec ops.add lhs rhs out) ∧
    (∃ out, subtract ops lhs rhs = Except.ok out ∧ binOutSpec ops.sub lhs rhs out) ∧
    (∃ out, multiply ops lhs rhs = Except.ok out ∧ binOutSpec ops.mul lhs rhs out) :=
  ⟨binary_ok ops.add lhs rhs hl hr hlen, binary_ok ops.sub lhs rhs hl hr hlen,
    binary_ok ops.mul lhs rhs hl hr hlen⟩

/-- C3 witness: the `test_add` vector
`add([None, 6, None, 6], [5, None, None, 6])`. -/
theorem add_subtract_multiply_witness :
    ∃ out,
      add i32ops
        (PrimitiveArray.mk ([0, 6, 0, 6] : List Int) (some [false, true, false, true]))
        (PrimitiveArray.mk ([5, 0, 0, 6] : List Int) (some [true, false, false, true])) =
        Except.ok out ∧
      binOutSpec i32ops.add
        (PrimitiveArray.mk ([0, 6, 0, 6] : List Int) (some [false, true, false, true]))
        (PrimitiveArray.mk ([5, 0, 0, 6] : List Int) (some [true, false, false, true])) out :=
  (add_subtract_multiply_spec i32ops _ _ (by decide) (by decide) (by decide)).1

/-- C6: `divide_scalar` fails unconditionally on a zero divisor (whatever
the array), and on a nonzero divisor succeeds as a pure unary divide with
the validity unchanged. -/
theorem divide_scalar_spec {α : Type} [Inhabited α] (ops : NumOps α)
    (a : PrimitiveArray α) (d : α) :
    (ops.isZero d = true →
      divide_scalar ops a d =
        Except.error (ArrowError.invalidArgumentError "The divisor cannot be zero")) ∧
    (ops.isZero d = false →
      divide_scalar ops a d =
        Except.ok (PrimitiveArray.mk (a.values.map (fun x => ops.div x d)) a.validity)) := by
  constructor
  · intro h
    simp [divide_scalar, h]
  · intro h
    simp [divide_scalar, h, unary]

/-- C6 witness: the zero-divisor case at a concrete all-null array. -/
theorem divide_scalar_witness :
    divide_scalar i32ops (PrimitiveArray.mk ([7] : List Int) (some [false])) 0 =
      Except.error (ArrowError.invalidArgumentError "The divisor cannot be zero") :=
  (divide_scalar_spec i32ops (PrimitiveArray.mk ([7] : List Int) (some [false])) 0).1 (by decide)

/-- C7: every unary operation returns the input's validity unchanged, so
the output is null at a position iff the input is (`divide_scalar` covered
on its success path). -/
theorem unary_validity_spec {α : Type} [Inhabited α] (ops : NumOps α)
    (powf : α → α → α) (a : PrimitiveArray α) (s e : α) :
    (negate ops a).validity = a.validity ∧
    (powf_scalar powf a e).validity = a.validity ∧
    (add_scalar ops a s).validity = a.validity ∧
    (subtract_scalar ops a s).validity = a.validity ∧
    (multiply_scalar ops a s).validity = a.validity ∧
    (∀ out, divide_scalar ops a s = Except.ok out → out.validity = a.validity) ∧
    (∀ i, (negate ops a).isNullAt i = a.isNullAt i) ∧
    (∀ i, (powf_scalar powf a e).isNullAt i = a.isNullAt i) ∧
    (∀ i, (add_scalar ops a s).isNullAt i = a.isNullAt i) ∧
    (∀ i, (subtract_scalar ops a s).isNullAt i = a.isNullAt i) ∧
    (∀ i, (multiply_scalar ops a s).isNullAt i = a.isNullAt i) ∧
    (∀ out, divide_scalar ops a s = Except.ok out →
      ∀ i, out.isNullAt i = a.isNullAt i) := by
  have hds : ∀ out, divide_scalar ops a s = Except.ok out → out.validity = a.validity := by
    intro out h
    simp only [divide_scalar] at h
    split at h
    · simp at h
    · have ho : unary a (fun x => ops.div x s) = out := by simpa using h
      rw [← ho]
      rfl
  refine ⟨rfl, rfl, rfl, rfl, rfl, hds, fun i => rfl, fun i => rfl, fun i => rfl,
    fun i => rfl, fun i => rfl, ?_⟩
  intro out h i
  simp only [PrimitiveArray.isNullAt, PrimitiveArray.isValidAt, hds out h]

/-- C7 witness at a concrete array with a null. -/
theorem unary_validity_witness :
    (negate i32ops (PrimitiveArray.mk ([2, 5] : List Int) (some [true, false]))).validity =
      (PrimitiveArray.mk ([2, 5] : List Int) (some [true, false])).validity :=
  (unary_validity_spec i32ops (fun x _ => x)
    (PrimitiveArray.mk ([2, 5] : List Int) (some [true, false])) 1 1).1

/-! ### The arithmetic dispatch layer -/

/-- C4 (amended): operands of different logical types make `arithmetic`
fail with the unsupported / not-yet-implemented error kind. -/
theorem arithmetic_mismatch_spec (f32ops f64ops : NumOps Int)
    (lhs rhs : DynArray) (op : Operator) (h : lhs.dt ≠ rhs.dt) :
    arithmetic f32ops f64ops lhs op rhs =
      Outcome.err (ArrowError.notYetImplemented
        "Arithmetic is currently only supported for arrays of the same logical type") := by
  unfold arithmetic
  rw [if_pos h]

/-- C4 counterexample: at `Int8` versus `Int16` operands the error returned
is of the not-yet-implemented kind, which is not the invalid-argument
kind the claim asserts. -/
theorem arithmetic_mismatch_cex :
    arithmetic (intOpsS 32) (intOpsS 64)
        (DynArray.mk DataType.int8 (PrimitiveArray.mk [] none)) Operator.add
        (DynArray.mk DataType.int16 (PrimitiveArray.mk [] none)) =
      Outcome.err (ArrowError.notYetImplemented
        "Arithmetic is currently only supported for arrays of the same logical type") ∧
    (ArrowError.notYetImplemented
        "Arithmetic is currently only supported for arrays of the same logical type").isInvalidArgument
      = false :=
  ⟨rfl, rfl⟩

/-- C4 witness. -/
theorem arithmetic_mismatch_witness :
    arithmetic (intOpsS 32) (intOpsS 64)
        (DynArray.mk DataType.int8 (PrimitiveArray.mk [] none)) Operator.subtract
        (DynArray.mk DataType.int32 (PrimitiveArray.mk [] none)) =
      Outcome.err (ArrowError.notYetImplemented
        "Arithmetic is currently only supported for arrays of the same logical type") :=
  arithmetic_mismatch_spec (intOpsS 32) (intOpsS 64)
    (DynArray.mk DataType.int8 (PrimitiveArray.mk [] none))
    (DynArray.mk DataType.int32 (PrimitiveArray.mk [] none)) Operator.subtract (by decide)

/-- C10: `Duration` operands (any time unit) are dispatched to the same
64-bit signed integer kernel as `Int64` operands: the outcome is the
`Int64` outcome re-tagged, never the unsupported-type error. -/
theorem arithmetic_duration_as_int64 (f32ops f64ops : NumOps Int)
    (u : TimeUnit) (a b : PrimitiveArray Int) (op : Operator) :
    arithmetic f32ops f64ops (DynArray.mk (DataType.duration u) a) op
        (DynArray.mk (DataType.duration u) b) =
      exceptOutcome ((arithmetic_primitive (intOpsS 64) a op b).map
        (fun r => DynArray.mk (DataType.duration u) r)) ∧
    arithmetic f32ops f64ops (DynArray.mk DataType.int64 a) op
        (DynArray.mk DataType.int64 b) =
      exceptOutcome ((arithmetic_primitive (intOpsS 64) a op b).map
        (fun r => DynArray.mk DataType.int64 r)) ∧
    (arithmetic f32ops f64ops (DynArray.mk (DataType.duration u) a) op
        (DynArray.mk (DataType.duration u) b)).map (fun d => d.arr) =
      (arithmetic f32ops f64ops (DynArray.mk DataType.int64 a) op
        (DynArray.mk DataType.int64 b)).map (fun d => d.arr) := by
  have h1 : arithmetic f32ops f64ops (DynArray.mk (DataType.duration u) a) op
      (DynArray.mk (DataType.duration u) b) =
      exceptOutcome ((arithmetic_primitive (intOpsS 64) a op b).map
        (fun r => DynArray.mk (DataType.duration u) r)) := by
    unfold arithmetic
    rw [if_neg (by simp)]
  have h2 : arithmetic f32ops f64ops (DynArray.mk DataType.int64 a) op
      (DynArray.mk DataType.int64 b) =
      exceptOutcome ((arithmetic_primitive (intOpsS 64) a op b).map
        (fun r => DynArray.mk DataType.int64 r)) := by
    unfold arithmetic
    rw [if_neg (by simp)]
  refine ⟨h1, h2, ?_⟩
  rw [h1, h2]
  cases arithmetic_primitive (intOpsS 64) a op b <;> rfl

/-! ### The division kernel -/

theorem except_map_eq_error_iff {α β : Type} (f : α → β)
    (x : Except ArrowError α) (e : ArrowError) :
    x.map f = Except.error e ↔ x = Except.error e := by
  cases x <;> simp [Except.map]

theorem except_map_eq_ok_iff {α β : Type} (f : α → β)
    (x : Except ArrowError α) (b : β) :
    x.map f = Except.ok b ↔ ∃ a, x = Except.ok a ∧ f a = b := by
  cases x <;> simp [Except.map]

theorem divide_eq_collect {α : Type} (ops : NumOps α) (lhs rhs : PrimitiveArray α)
    (hlen : lhs.values.length = rhs.values.length) :
    divide ops lhs rhs =
      (tryCollect ((bzOf lhs rhs).map (divElem ops))).map
        (fun vs => PrimitiveArray.mk vs
          (combine_validities lhs.validity rhs.validity)) := by
  unfold divide bzOf
  rw [if_pos hlen]
  cases h : combine_validities lhs.validity rhs.validity with
  | none =>
    simp only [List.map_map]
    rfl
  | some b => rfl

theorem bzOf_length {α : Type} (lhs rhs : PrimitiveArray α) (hl : lhs.wf)
    (hr : rhs.wf) (hlen : lhs.values.length = rhs.values.length) :
    (bzOf lhs rhs).length = lhs.values.length := by
  have h2 : ∀ l ∈ rhs.validity, l.length = lhs.values.length := by
    intro l hl2
    rw [wf_lengths rhs hr l hl2]
    exact hlen.symm
  unfold bzOf
  cases h : combine_validities lhs.validity rhs.validity with
  | none =>
    rw [List.length_map, List.length_zip, ← hlen, min_self]
  | some b =>
    have hb : b.length = lhs.values.length :=
      combine_validities_lengths (wf_lengths lhs hl) h2 b (by rw [Option.mem_def, h])
    rw [List.length_zip, List.length_zip, ← hlen, min_self, hb, min_self]

theorem bzOf_getD {α : Type} [Inhabited α] (lhs rhs : PrimitiveArray α)
    (hl : lhs.wf) (hr : rhs.wf) (hlen : lhs.values.length = rhs.values.length)
    (i : Nat) (hi : i < lhs.values.length) :
    (bzOf lhs rhs).getD i (true, default, default) =
      ((lhs.isValidAt i && rhs.isValidAt i), lhs.value i, rhs.value i) := by
  have h2 : ∀ l ∈ rhs.validity, l.length = lhs.values.length := by
    intro l hl2
    rw [wf_lengths rhs hr l hl2]
    exact hlen.symm
  have hcomb := validAtOpt_combine (wf_lengths lhs hl) h2 i hi
  have hzlen : i < (lhs.values.zip rhs.values).length := by
    rw [List.length_zip, ← hlen, min_self]
    exact hi
  have hvl : lhs.value i = lhs.values.getD i default := rfl
  unfold bzOf
  cases h : combine_validities lhs.validity rhs.validity with
  | none =>
    obtain ⟨he1, he2⟩ := combine_validities_eq_none_iff.mp h
    have hmaplen : i < ((lhs.values.zip rhs.values).map
        (fun t => (true, t))).length := by
      rw [List.length_map]
      exact hzlen
    rw [List.getD_eq_getElem _ _ hmaplen, List.getElem_map, List.getElem_zip]
    simp only [PrimitiveArray.isValidAt, PrimitiveArray.validAtOpt, he1, he2,
      PrimitiveArray.value]
    rw [List.getD_eq_getElem _ _ hi, List.getD_eq_getElem _ _ (hlen ▸ hi)]
    rfl
  | some b =>
    have hb : b.length = lhs.values.length :=
      combine_validities_lengths (wf_lengths lhs hl) h2 b (by rw [Option.mem_def, h])
    have hblen : i < (b.zip (lhs.values.zip rhs.values)).length := by
      rw [List.length_zip, hb, List.length_zip, ← hlen, min_self, min_self]
      exact hi
    rw [List.getD_eq_getElem _ _ hblen, List.getElem_zip, List.getElem_zip]
    rw [h] at hcomb
    simp only [PrimitiveArray.validAtOpt] at hcomb
    rw [List.getD_eq_getElem _ _ (hb ▸ hi)] at hcomb
    rw [hcomb]
    simp only [PrimitiveArray.value]
    rw [List.getD_eq_getElem _ _ hi, List.getD_eq_getElem _ _ (hlen ▸ hi)]
    rfl

theorem divElem_error_exists_iff {α : Type} (ops : NumOps α) (t : Bool × α × α) :
    (∃ e, divElem ops t = Except.error e) ↔
      (t.1 = true ∧ ops.isZero t.2.2 = true) := by
  rcases t with ⟨b, l, r⟩
  cases b <;> cases hz : ops.isZero r <;> simp [divElem, hz]

theorem divElem_ok {α : Type} {ops : NumOps α} {t : Bool × α × α} {a : α}
    (h : divElem ops t = Except.ok a) (hv : t.1 = true) :
    a = ops.div t.2.1 t.2.2 := by
  rcases t with ⟨b, l, r⟩
  simp only at hv
  subst hv
  cases hz : ops.isZero r with
  | true => rw [divElem, if_pos rfl, if_pos hz] at h; exact absurd h (by simp)
  | false =>
    rw [divElem, if_pos rfl, if_neg (by rw [hz]; exact Bool.false_ne_true)] at h
    have := Except.ok.inj h
    exact this.symm

/-- C1: for same-length well-formed operands, `divide` errors exactly when
some position is valid in the combined output validity and carries a zero
divisor, and on success its result is null where either operand is and
holds the quotient at every non-null position. -/
theorem divide_zero_check_spec {α : Type} [Inhabited α] (ops : NumOps α)
    (lhs rhs : PrimitiveArray α) (hl : lhs.wf) (hr : rhs.wf)
    (hlen : lhs.len = rhs.len) :
    ((∃ e, divide ops lhs rhs = Except.error e) ↔
      ∃ i, i < lhs.len ∧ (lhs.isValidAt i && rhs.isValidAt i) = true ∧
        ops.isZero (rhs.value i) = true) ∧
    (∀ out, divide ops lhs rhs = Except.ok out → binOutSpec ops.div lhs rhs out) := by
  have hlen' : lhs.values.length = rhs.values.length := hlen
  have hdiv := divide_eq_collect ops lhs rhs hlen'
  have hbzlen := bzOf_length lhs rhs hl hr hlen'
  have h2 : ∀ l ∈ rhs.validity, l.length = lhs.values.length := by
    intro l hl2
    rw [wf_lengths rhs hr l hl2]
    exact hlen'.symm
  constructor
  · constructor
    · rintro ⟨e, he⟩
      rw [hdiv, except_map_eq_error_iff] at he
      obtain ⟨x, hx, e2, hxe⟩ := (tryCollect_error_exists_iff _).mp ⟨e, he⟩
      obtain ⟨j, hj, hjx⟩ := List.mem_iff_getElem.mp hx
      rw [List.getElem_map] at hjx
      have hjbz : j < (bzOf lhs rhs).length := by simpa using hj
      have hjlen : j < lhs.values.length := by rw [← hbzlen]; exact hjbz
      have hget := bzOf_getD lhs rhs hl hr hlen' j hjlen
      rw [List.getD_eq_getElem _ _ hjbz] at hget
      have herr : ∃ e3, divElem ops ((bzOf lhs rhs)[j]) = Except.error e3 :=
        ⟨e2, hjx.trans hxe⟩
      rw [hget, divElem_error_exists_iff] at herr
      exact ⟨j, hjlen, herr.1, herr.2⟩
    · rintro ⟨i, hi, hvalid, hzero⟩
      rw [hdiv]
      cases hc : tryCollect ((bzOf lhs rhs).map (divElem ops)) with
      | error e => exact ⟨e, rfl⟩
      | ok vs =>
        exfalso
        rw [tryCollect_map_ok_iff] at hc
        obtain ⟨hvslen, hcall⟩ := hc
        have hibz : i < (bzOf lhs rhs).length := by rw [hbzlen]; exact hi
        have hivs : i < vs.length := by rw [hvslen, hbzlen]; exact hi
        have hok := hcall i hibz hivs
        have hget := bzOf_getD lhs rhs hl hr hlen' i hi
        rw [List.getD_eq_getElem _ _ hibz] at hget
        rw [hget] at hok
        obtain ⟨e, he⟩ := (divElem_error_exists_iff ops
          ((lhs.isValidAt i && rhs.isValidAt i), lhs.value i, rhs.value i)).mpr
          ⟨hvalid, hzero⟩
        rw [he] at hok
        exact absurd hok (by simp)
  · intro out hout
    rw [hdiv, except_map_eq_ok_iff] at hout
    obtain ⟨vs, hvs, hmk⟩ := hout
    rw [tryCollect_map_ok_iff] at hvs
    obtain ⟨hvslen, hcall⟩ := hvs
    subst hmk
    constructor
    · show vs.length = lhs.len
      rw [hvslen, hbzlen]
      rfl
    · intro i hi
      have hibz : i < (bzOf lhs rhs).length := by rw [hbzlen]; exact hi
      have hivs : i < vs.length := by rw [hvslen, hbzlen]; exact hi
      have hok := hcall i hibz hivs
      have hget := bzOf_getD lhs rhs hl hr hlen' i hi
      rw [List.getD_eq_getElem _ _ hibz] at hget
      rw [hget] at hok
      have hval := validAtOpt_combine (wf_lengths lhs hl) h2 i hi
      constructor
      · simp only [PrimitiveArray.isNullAt, PrimitiveArray.isValidAt]
        rw [hval, Bool.not_and]
      · intro hnn
        simp only [PrimitiveArray.isNullAt, PrimitiveArray.isValidAt] at hnn
        rw [hval] at hnn
        have hnn' : (!(lhs.isValidAt i && rhs.isValidAt i)) = false := hnn
        have hvtrue : (lhs.isValidAt i && rhs.isValidAt i) = true := by
          cases hb : (lhs.isValidAt i && rhs.isValidAt i) with
          | true => rfl
          | false => rw [hb] at hnn'; exact absurd hnn' (by simp)
        have hv := divElem_ok hok hvtrue
        show vs.getD i default = ops.div (lhs.value i) (rhs.value i)
        rw [List.getD_eq_getElem _ _ hivs]
        exact hv

/-- C1 witness: `divide([None], [Some 0])` — the zero divisor sits at a
position whose combined validity bit is cleared, so no error. -/
theorem divide_zero_check_witness :
    ((∃ e, divide i32ops (PrimitiveArray.mk ([6] : List Int) (some [false]))
        (PrimitiveArray.mk ([0] : List Int) none) = Except.error e) ↔
      ∃ i, i < (PrimitiveArray.mk ([6] : List Int) (some [false])).len ∧
        ((PrimitiveArray.mk ([6] : List Int) (some [false])).isValidAt i &&
          (PrimitiveArray.mk ([0] : List Int) none).isValidAt i) = true ∧
        i32ops.isZero ((PrimitiveArray.mk ([0] : List Int) none).value i) = true) :=
  (divide_zero_check_spec i32ops _ _ (by decide) (by decide) (by decide)).1

/-! ### Wrapping negation -/

theorem wrapS_eq_self {w : Nat} {x : Int} (hw : 0 < w)
    (h1 : -(2 ^ (w - 1)) ≤ x) (h2 : x < 2 ^ (w - 1)) : wrapS w x = x := by
  have hw2 : (2 : Int) ^ w = 2 ^ (w - 1) * 2 := by
    rw [← pow_succ]
    congr 1
    omega
  unfold wrapS
  rw [Int.emod_eq_of_lt (by linarith) (by rw [hw2]; linarith)]
  ring

theorem intOpsS_neg_neg {w : Nat} {x : Int} (hw : 0 < w)
    (h1 : -(2 ^ (w - 1)) ≤ x) (h2 : x < 2 ^ (w - 1)) :
    (intOpsS w).neg ((intOpsS w).neg x) = x := by
  have hw2 : (2 : Int) ^ w = 2 ^ (w - 1) * 2 := by
    rw [← pow_succ]
    congr 1
    omega
  have lemA : wrapS w ((2 : Int) ^ (w - 1)) = -(2 ^ (w - 1)) := by
    unfold wrapS
    have hsum : (2 : Int) ^ (w - 1) + 2 ^ (w - 1) = 2 ^ w := by
      rw [hw2]
      ring
    rw [hsum, Int.emod_self]
    ring
  show wrapS w (-(wrapS w (-x))) = x
  rcases eq_or_lt_of_le h1 with heq | hlt
  · rw [← heq, neg_neg, lemA, neg_neg, lemA]
  · have hn1 : wrapS w (-x) = -x :=
      wrapS_eq_self hw (by linarith) (by linarith)
    rw [hn1, neg_neg]
    exact wrapS_eq_self hw h1 h2

/-- C9: negating a signed integer array twice (at any width `w > 0`, with
stored values in range) returns a value-equal array, the validity
unchanged by each application. -/
theorem negate_negate_spec (w : Nat) (a : PrimitiveArray Int) (hw : 0 < w)
    (hrange : ∀ x ∈ a.values, -(2 ^ (w - 1)) ≤ x ∧ x < 2 ^ (w - 1)) :
    negate (intOpsS w) (negate (intOpsS w) a) = a ∧
    (negate (intOpsS w) a).validity = a.validity := by
  constructor
  · have hmap : (a.values.map (intOpsS w).neg).map (intOpsS w).neg = a.values := by
      rw [List.map_map]
      have hcong : ∀ x ∈ a.values, ((intOpsS w).neg ∘ (intOpsS w).neg) x = id x := by
        intro x hx
        simpa using intOpsS_neg_neg hw (hrange x hx).1 (hrange x hx).2
      rw [List.map_congr_left hcong, List.map_id]
    calc negate (intOpsS w) (negate (intOpsS w) a)
        = PrimitiveArray.mk ((a.values.map (intOpsS w).neg).map (intOpsS w).neg)
            a.validity := rfl
      _ = PrimitiveArray.mk a.values a.validity := by rw [hmap]
      _ = a := rfl
  · rfl

/-- C9 witness at `i32`, extreme values included. -/
theorem negate_negate_witness :
    negate (intOpsS 32) (negate (intOpsS 32)
        (PrimitiveArray.mk ([5, -3, 2147483647, -2147483648] : List Int)
          (some [true, false, true, true]))) =
      PrimitiveArray.mk ([5, -3, 2147483647, -2147483648] : List Int)
        (some [true, false, true, true]) ∧
    (negate (intOpsS 32)
        (PrimitiveArray.mk ([5, -3, 2147483647, -2147483648] : List Int)
          (some [true, false, true, true]))).validity =
      (PrimitiveArray.mk ([5, -3, 2147483647, -2147483648] : List Int)
        (some [true, false, true, true])).validity :=
  negate_negate_spec 32 _ (by decide) (by decide)

/-! ### The gather bug at null index slots -/

/-- C2 is refuted by the code (which here contradicts its own comments in
`take`): when only the indices carry nulls, the kernel iterates the raw
stored index integers.  At a null slot storing `-1` the stored integer is
read and converted, and the conversion failure fails the whole call — the
claim requires success with a null output slot.  At a null slot storing
the in-bounds integer `1` the emitted value is the element read at
position 1 (`20`), not the type's default. -/
theorem take_null_index_slot_bug :
    take (PrimitiveArray.mk ([10, 20] : List Int) none)
        (PrimitiveArray.mk ([-1] : List Int) (some [false])) =
      Outcome.err ArrowError.indexOverflow ∧
    take (PrimitiveArray.mk ([10, 20] : List Int) none)
        (PrimitiveArray.mk ([1] : List Int) (some [false])) =
      Outcome.ok (PrimitiveArray.mk ([20] : List Int) (some [false])) := by
  decide

/-! ### The gather algorithm -/

theorem outcome_map_eq_ok_iff {α β : Type} (f : α → β) (x : Outcome α) (b : β) :
    x.map f = Outcome.ok b ↔ ∃ a, x = Outcome.ok a ∧ f a = b := by
  cases x <;> simp [Outcome.map]

theorem collectOutcome_map_ok_length {α β : Type} {f : β → Outcome α}
    {l : List β} {out : List α}
    (h : collectOutcome (l.map f) = Outcome.ok out) : out.length = l.length := by
  rw [collectOutcome_eq_ok_iff] at h
  have := congrArg List.length h
  simpa using this.symm

theorem takeNoValidityElem_ok {α : Type} [Inhabited α] (values : List α)
    {k : Int} (h0 : 0 ≤ k) (hb : k.toNat < values.length) :
    takeNoValidityElem values k = Outcome.ok (values.getD k.toNat default) := by
  unfold takeNoValidityElem maybe_usize
  rw [if_pos h0]
  show (match values.get? k.toNat with
        | some v => Outcome.ok v
        | none => Outcome.fatal) = Outcome.ok (values.getD k.toNat default)
  rw [List.get?_eq_getElem?, List.getElem?_eq_getElem hb,
    List.getD_eq_getElem _ _ hb]

theorem takeNoValidityElem_err {α : Type} (values : List α) {k : Int}
    (h0 : k < 0) :
    takeNoValidityElem values k = Outcome.err ArrowError.indexOverflow := by
  unfold takeNoValidityElem maybe_usize
  rw [if_neg (not_le.mpr h0)]

theorem takeNoValidityElem_fatal {α : Type} (values : List α) {k : Int}
    (h0 : 0 ≤ k) (hb : values.length ≤ k.toNat) :
    takeNoValidityElem values k = Outcome.fatal := by
  unfold takeNoValidityElem maybe_usize
  rw [if_pos h0]
  show (match values.get? k.toNat with
        | some v => Outcome.ok v
        | none => Outcome.fatal) = Outcome.fatal
  rw [List.get?_eq_getElem?, List.getElem?_eq_none hb]

theorem null_count_ne_zero_validity {α : Type} (a : PrimitiveArray α)
    (h : a.null_count ≠ 0) : ∃ v, a.validity = some v := by
  cases hv : a.validity with
  | none =>
    exfalso
    apply h
    simp [PrimitiveArray.null_count, hv]
  | some v => exact ⟨v, rfl⟩

theorem take_branch_ff {α : Type} [Inhabited α] (values : PrimitiveArray α)
    (indices : PrimitiveArray Int) (hv : values.null_count = 0)
    (hi : indices.null_count = 0) :
    take values indices = (take_no_validity values.values indices.values).map
      (fun p => PrimitiveArray.mk p.1 p.2) := by
  unfold take
  rw [hv, hi]
  try rfl

theorem take_branch_tf {α : Type} [Inhabited α] (values : PrimitiveArray α)
    (indices : PrimitiveArray Int) (hv : values.null_count ≠ 0)
    (hi : indices.null_count = 0) :
    take values indices = (take_values_validity values indices.values).map
      (fun p => PrimitiveArray.mk p.1 p.2) := by
  have hb : (values.null_count != 0) = true := by simpa using hv
  unfold take
  rw [hb, hi]
  try rfl

theorem take_branch_ft {α : Type} [Inhabited α] (values : PrimitiveArray α)
    (indices : PrimitiveArray Int) (hv : values.null_count = 0)
    (hi : indices.null_count ≠ 0) :
    take values indices = (take_indices_validity values.values indices).map
      (fun p => PrimitiveArray.mk p.1 p.2) := by
  have hb : (indices.null_count != 0) = true := by simpa using hi
  unfold take
  rw [hv, hb]
  try rfl

theorem take_branch_tt {α : Type} [Inhabited α] (values : PrimitiveArray α)
    (indices : PrimitiveArray Int) (hv : values.null_count ≠ 0)
    (hi : indices.null_count ≠ 0) :
    take values indices = (take_values_indices_validity values indices).map
      (fun p => PrimitiveArray.mk p.1 p.2) := by
  have hb1 : (values.null_count != 0) = true := by simpa using hv
  have hb2 : (indices.null_count != 0) = true := by simpa using hi
  unfold take
  rw [hb1, hb2]
  try rfl

/-- C5: with no nulls anywhere, `take` succeeds with no output bitmap and
`out[i] = values[indices[i]]` when each index converts and lands in
bounds; an index that does not convert (with every converting index in
bounds) yields the recoverable conversion error; a converting
out-of-bounds index (with every index converting) is a fatal fault, not a
returned error. -/
theorem take_no_nulls_spec {α : Type} [Inhabited α]
    (values : PrimitiveArray α) (indices : PrimitiveArray Int)
    (hnv : values.null_count = 0) (hni : indices.null_count = 0) :
    ((∀ k ∈ indices.values, 0 ≤ k ∧ k.toNat < values.len) →
      ∃ out, take values indices = Outcome.ok out ∧ out.validity = none ∧
        out.len = indices.len ∧
        ∀ i, i < indices.len →
          out.value i = values.value ((indices.value i).toNat)) ∧
    ((∀ k ∈ indices.values, 0 ≤ k → k.toNat < values.len) →
      (∃ k ∈ indices.values, k < 0) →
      take values indices = Outcome.err ArrowError.indexOverflow) ∧
    ((∀ k ∈ indices.values, 0 ≤ k) →
      (∃ k ∈ indices.values, values.len ≤ k.toNat) →
      take values indices = Outcome.fatal) := by
  have hbr := take_branch_ff values indices hnv hni
  refine ⟨?_, ?_, ?_⟩
  · intro hin
    have hlist : indices.values.map (takeNoValidityElem values.values) =
        indices.values.map
          (fun k => Outcome.ok (values.values.getD k.toNat default)) :=
      List.map_congr_left (fun k hk =>
        takeNoValidityElem_ok values.values (hin k hk).1 (hin k hk).2)
    have hcoll : collectOutcome
        (indices.values.map (takeNoValidityElem values.values)) =
        Outcome.ok (indices.values.map
          (fun k => values.values.getD k.toNat default)) := by
      rw [hlist, collectOutcome_eq_ok_iff, List.map_map]
      rfl
    refine ⟨PrimitiveArray.mk (indices.values.map
        (fun k => values.values.getD k.toNat default)) none, ?_, rfl, ?_, ?_⟩
    · rw [hbr]
      unfold take_no_validity
      rw [hcoll]
      rfl
    · show (indices.values.map
          (fun k => values.values.getD k.toNat default)).length = indices.len
      rw [List.length_map]
      rfl
    · intro i hi
      have hmap : i < (indices.values.map
          (fun k => values.values.getD k.toNat default)).length := by
        rw [List.length_map]
        exact hi
      show (indices.values.map
          (fun k => values.values.getD k.toNat default)).getD i default =
        values.value ((indices.value i).toNat)
      rw [List.getD_eq_getElem _ _ hmap, List.getElem_map]
      simp only [PrimitiveArray.value]
      rw [List.getD_eq_getElem _ _ hi]
  · intro hconv hneg
    rw [hbr]
    have hcoll : collectOutcome
        (indices.values.map (takeNoValidityElem values.values)) =
        Outcome.err ArrowError.indexOverflow := by
      apply collectOutcome_err_of
      · intro x hx
        obtain ⟨k, hk, hkx⟩ := List.mem_map.mp hx
        rcases lt_or_le k 0 with hneg1 | hpos
        · left
          rw [← hkx]
          exact takeNoValidityElem_err values.values hneg1
        · right
          exact ⟨values.values.getD k.toNat default, by
            rw [← hkx]
            exact takeNoValidityElem_ok values.values hpos (hconv k hk hpos)⟩
      · obtain ⟨k, hk, hkneg⟩ := hneg
        exact ⟨takeNoValidityElem values.values k, List.mem_map_of_mem _ hk,
          takeNoValidityElem_err values.values hkneg⟩
    unfold take_no_validity
    rw [hcoll]
    rfl
  · intro hconv hoob
    rw [hbr]
    have hcoll : collectOutcome
        (indices.values.map (takeNoValidityElem values.values)) =
        Outcome.fatal := by
      apply collectOutcome_fatal_of
      · intro x hx
        obtain ⟨k, hk, hkx⟩ := List.mem_map.mp hx
        rcases lt_or_le k.toNat values.values.length with hb | hb
        · right
          exact ⟨values.values.getD k.toNat default, by
            rw [← hkx]
            exact takeNoValidityElem_ok values.values (hconv k hk) hb⟩
        · left
          rw [← hkx]
          exact takeNoValidityElem_fatal values.values (hconv k hk) hb
      · obtain ⟨k, hk, hkoob⟩ := hoob
        exact ⟨takeNoValidityElem values.values k, List.mem_map_of_mem _ hk,
          takeNoValidityElem_fatal values.values (hconv k hk) hkoob⟩
    unfold take_no_validity
    rw [hcoll]
    rfl

/-- C5 witness: `take([10, 20, 30], [2, 0])`, all indices in bounds. -/
theorem take_no_nulls_witness :
    ∃ out, take (PrimitiveArray.mk ([10, 20, 30] : List Int) none)
        (PrimitiveArray.mk ([2, 0] : List Int) none) = Outcome.ok out ∧
      out.validity = none ∧
      out.len = (PrimitiveArray.mk ([2, 0] : List Int) none).len ∧
      ∀ i, i < (PrimitiveArray.mk ([2, 0] : List Int) none).len →
        out.value i = (PrimitiveArray.mk ([10, 20, 30] : List Int) none).value
          (((PrimitiveArray.mk ([2, 0] : List Int) none).value i).toNat) :=
  (take_no_nulls_spec (PrimitiveArray.mk ([10, 20, 30] : List Int) none)
    (PrimitiveArray.mk ([2, 0] : List Int) none) rfl rfl).1 (by decide)

/-- C8: whatever the null-presence combination, a successful `take`
returns exactly one element per index. -/
theorem take_len_spec {α : Type} [Inhabited α] (values : PrimitiveArray α)
    (indices : PrimitiveArray Int) (hwf : indices.wf) (out : PrimitiveArray α)
    (h : take values indices = Outcome.ok out) : out.len = indices.len := by
  rcases Nat.eq_zero_or_pos values.null_count with hv | hv <;>
    rcases Nat.eq_zero_or_pos indices.null_count with hi | hi
  · rw [take_branch_ff values indices hv hi, outcome_map_eq_ok_iff] at h
    obtain ⟨p, hp, hmk⟩ := h
    unfold take_no_validity at hp
    rw [outcome_map_eq_ok_iff] at hp
    obtain ⟨q, hq, hpair⟩ := hp
    have hqlen := collectOutcome_map_ok_length hq
    subst hmk
    rw [← hpair]
    exact hqlen
  · rw [take_branch_ft values indices hv (by omega), outcome_map_eq_ok_iff] at h
    obtain ⟨p, hp, hmk⟩ := h
    simp only [take_indices_validity] at hp
    rw [outcome_map_eq_ok_iff] at hp
    obtain ⟨q, hq, hpair⟩ := hp
    have hqlen := collectOutcome_map_ok_length hq
    subst hmk
    rw [← hpair]
    exact hqlen
  · rw [take_branch_tf values indices (by omega) hi, outcome_map_eq_ok_iff] at h
    obtain ⟨p, hp, hmk⟩ := h
    simp only [take_values_validity] at hp
    rw [outcome_map_eq_ok_iff] at hp
    obtain ⟨q, hq, hpair⟩ := hp
    have hqlen := collectOutcome_map_ok_length hq
    subst hmk
    rw [← hpair]
    show (q.map Prod.fst).length = indices.len
    rw [List.length_map]
    exact hqlen
  · rw [take_branch_tt values indices (by omega) (by omega),
      outcome_map_eq_ok_iff] at h
    obtain ⟨p, hp, hmk⟩ := h
    simp only [take_values_indices_validity] at hp
    rw [outcome_map_eq_ok_iff] at hp
    obtain ⟨q, hq, hpair⟩ := hp
    have hqlen := collectOutcome_map_ok_length hq
    obtain ⟨v, hvv⟩ := null_count_ne_zero_validity indices (by omega)
    have hvlen : v.length = indices.values.length :=
      wf_lengths indices hwf v (by rw [Option.mem_def, hvv])
    have hitems : (List.zipWith (fun x b => if b then some x else none)
        indices.values (indices.validity.getD [])).length =
        indices.values.length := by
      simp [hvv, List.length_zipWith, hvlen]
    subst hmk
    rw [← hpair]
    show (q.map Prod.fst).length = indices.len
    rw [List.length_map, hqlen]
    exact hitems

/-- C8 witness: both operands carry nulls. -/
theorem take_len_witness :
    (PrimitiveArray.mk ([2, 1, 0] : List Int) (some [false, true, false])).len =
      (PrimitiveArray.mk ([1, 0, 0] : List Int) (some [true, true, false])).len :=
  take_len_spec (PrimitiveArray.mk ([1, 2] : List Int) (some [true, false]))
    (PrimitiveArray.mk ([1, 0, 0] : List Int) (some [true, true, false]))
    (by decide)
    (PrimitiveArray.mk ([2, 1, 0] : List Int) (some [false, true, false]))
    (by decide)

end Arrow2
